/-
Verification of the resilience-and-extraction core of the LLM client
(`src/utils/llm_client.py`): the retry loop with exponential backoff
(`LLMClient.chat_completion`), the stream aggregator
(`LLMClient._handle_streaming_response`), the extraction orchestrator
(`LLMClient.extract_json`), the balanced scanner
(`LLMClient._extract_balanced_json`) and the lenient cleaner
(`LLMClient._clean_json_string`).

Strings are embedded as `List Char`.  Python's `json.loads` is an external
library call; the orchestrator is therefore embedded parametrically over a
`parse : List Char → Option α` function, and a small strict-JSON parser
(`jsonLoads`) models the library for concrete witnesses.  Machine details
that the source relies on (ASCII whitespace for `\s`/`strip`, ASCII
lowering for `.lower()`) are modelled over the ASCII range, which covers
every character the source's fixed phrases and the inputs below use.
-/
import Mathlib

/-- ASCII whitespace, the characters matched by Python's `\s` and stripped
by `str.strip` on the inputs considered here. -/
def isSpace (c : Char) : Bool :=
  c == ' ' || c == '\t' || c == '\n' || c == '\r' || c == '\x0b' || c == '\x0c'

/-- Python `str.strip()`: remove leading and trailing whitespace. -/
def pystrip (s : List Char) : List Char :=
  List.reverse (List.dropWhile isSpace (List.reverse (List.dropWhile isSpace s)))

/-- Python `str.lower()` (ASCII case folding, character by character). -/
def toLowerStr (s : List Char) : List Char := s.map Char.toLower

/-- Python `text.lower().startswith(p.lower())` (line 116 of the source). -/
def startsWithCI (t p : List Char) : Bool :=
  List.isPrefixOf (toLowerStr p) (toLowerStr t)

/-- Python `hay.find(needle)`: index of the first occurrence of `needle`
in `hay`, `none` for Python's `-1`. -/
def findSub? (needle : List Char) : List Char → Option Nat
  | [] => if needle.isPrefixOf ([] : List Char) then some 0 else none
  | c :: t =>
    if needle.isPrefixOf (c :: t) then some 0
    else (findSub? needle t).map (fun n => n + 1)

/-- First regex pass of `_clean_json_string` (line 185):
`re.sub(r',(\s*[}\]])', r'\1', s)`.  The replacement keeps the captured
whitespace-and-closer group, so the net effect is: a comma whose next
non-whitespace character is `}` or `]` is deleted.  The skipped region of a
match contains no comma, so rescanning it (as this recursion does) matches
the regex engine's continue-after-match behaviour. -/
def removeTrailingCommas : List Char → List Char
  | [] => []
  | c :: rest =>
    if c == ',' then
      match rest.dropWhile isSpace with
      | d :: _ =>
        if d == '}' || d == ']' then removeTrailingCommas rest
        else c :: removeTrailingCommas rest
      | [] => c :: removeTrailingCommas rest
    else c :: removeTrailingCommas rest

/-- Second regex pass of `_clean_json_string` (line 186):
`re.sub(r'//.*?$', '', s, flags=re.MULTILINE)` — on `//`, drop up to (not
including) the next newline.  The flag records being inside a line
comment. -/
def removeLineCommentsAux : Bool → List Char → List Char
  | _, [] => []
  | true, c :: rest =>
    if c == '\n' then c :: removeLineCommentsAux false rest
    else removeLineCommentsAux true rest
  | false, c :: rest =>
    match rest with
    | r :: rest2 =>
      if c == '/' && r == '/' then removeLineCommentsAux true rest2
      else c :: removeLineCommentsAux false (r :: rest2)
    | [] => [c]

def removeLineComments (s : List Char) : List Char := removeLineCommentsAux false s

/-- Whether `*/` occurs (as adjacent characters) in the list. -/
def containsStarSlash : List Char → Bool
  | c :: r :: rest => (c == '*' && r == '/') || containsStarSlash (r :: rest)
  | _ => false

/-- Third regex pass of `_clean_json_string` (line 187):
`re.sub(r'/\*.*?\*/', '', s, flags=re.DOTALL)` — non-greedy, so each `/*`
is removed together with everything up to the nearest following `*/`.
A `/*` with no later `*/` matches nothing, and then nothing after it can
match either (a match needs a `*/`), so the remainder is kept verbatim.
The `true`/`[]` case is unreachable because of that guard. -/
def removeBlockCommentsAux : Bool → List Char → List Char
  | _, [] => []
  | true, c :: rest =>
    match rest with
    | r :: rest2 =>
      if c == '*' && r == '/' then removeBlockCommentsAux false rest2
      else removeBlockCommentsAux true (r :: rest2)
    | [] => []
  | false, c :: rest =>
    match rest with
    | r :: rest2 =>
      if c == '/' && r == '*' then
        if containsStarSlash rest2 then removeBlockCommentsAux true rest2
        else c :: r :: rest2
      else c :: removeBlockCommentsAux false (r :: rest2)
    | [] => [c]

def removeBlockComments (s : List Char) : List Char := removeBlockCommentsAux false s

/-- `LLMClient._clean_json_string` (lines 180-188): trailing-comma removal,
then line-comment removal, then block-comment removal, then `strip()`. -/
def clean_json_string (s : List Char) : List Char :=
  pystrip (removeBlockComments (removeLineComments (removeTrailingCommas s)))

/-- The scanner state of `_extract_balanced_json` (lines 200-202):
nesting depth, in-string flag, escape flag. -/
structure ScanState where
  depth : Int
  inString : Bool
  escapeNext : Bool
deriving DecidableEq

/-- One character step of the scanner's state update (lines 204-225),
excluding the depth-zero return. -/
def scanStep (sc ec : Char) (st : ScanState) (c : Char) : ScanState :=
  if st.escapeNext then ⟨st.depth, st.inString, false⟩
  else if c == '\\' then ⟨st.depth, st.inString, true⟩
  else if c == '"' then ⟨st.depth, !st.inString, st.escapeNext⟩
  else if st.inString then st
  else if c == sc then ⟨st.depth + 1, st.inString, st.escapeNext⟩
  else if c == ec then ⟨st.depth - 1, st.inString, st.escapeNext⟩
  else st

/-- The condition under which the scanner's loop returns at the current
character (lines 224-226): an unescaped closing character outside a string
that brings the depth to zero. -/
def closesB (sc ec : Char) (st : ScanState) (c : Char) : Bool :=
  !st.escapeNext && !(c == '\\') && !(c == '"') && !st.inString &&
    !(c == sc) && (c == ec) && (st.depth - 1 == 0)

/-- The scan loop of `_extract_balanced_json` (lines 204-226): returns the
absolute index at which the depth first returns to zero, `none` if it never
does.  `i` is the absolute index of the head of the remaining list. -/
def scanChars (sc ec : Char) : List Char → Nat → ScanState → Option Nat
  | [], _, _ => none
  | c :: rest, i, st =>
    if st.escapeNext then scanChars sc ec rest (i + 1) ⟨st.depth, st.inString, false⟩
    else if c == '\\' then scanChars sc ec rest (i + 1) ⟨st.depth, st.inString, true⟩
    else if c == '"' then scanChars sc ec rest (i + 1) ⟨st.depth, !st.inString, st.escapeNext⟩
    else if st.inString then scanChars sc ec rest (i + 1) st
    else if c == sc then scanChars sc ec rest (i + 1) ⟨st.depth + 1, st.inString, st.escapeNext⟩
    else if c == ec then
      (if st.depth - 1 == 0 then some i
       else scanChars sc ec rest (i + 1) ⟨st.depth - 1, st.inString, st.escapeNext⟩)
    else scanChars sc ec rest (i + 1) st

/-- Line 194: `end_char = '}' if start_char == '{' else ']'`. -/
def endCharOf (sc : Char) : Char := if sc == '{' then '}' else ']'

/-- The region-finding portion of `_extract_balanced_json` (the spec's
Balanced Scanner, lines 194-227): the first occurrence of the opening
character and the index where the depth first returns to zero. -/
def extract_balanced_region (text : List Char) (sc : Char) : Option (Nat × Nat) :=
  match List.findIdx? (fun c => c == sc) text with
  | none => none
  | some s =>
    match scanChars sc (endCharOf sc) (text.drop s) s ⟨0, false, false⟩ with
    | none => none
    | some e => some (s, e)

/-- The parse-then-clean-then-reparse sequence shared by the fenced-block
strategies (lines 134-141 and 152-159): try the string as-is, then try its
cleaned form. -/
def parseWithClean {α : Type} (parse : List Char → Option α)
    (json_str : List Char) : Option α :=
  match parse json_str with
  | some v => some v
  | none =>
    match parse (clean_json_string json_str) with
    | some v => some v
    | none => none

/-- `LLMClient._extract_balanced_json` (lines 190-237), parametric over the
external `json.loads`.  On parse failure of the region, line 231 computes
the cleaned string but line 233 parses the UNCLEANED `json_str` a second
time (the defect noted in the spec's design notes; the cleaned string is a
dead computation, so it is not repeated here); on the second failure the
loop breaks and the function returns `None`. -/
def extract_balanced_json {α : Type} (parse : List Char → Option α)
    (text : List Char) (sc : Char) : Option α :=
  match extract_balanced_region text sc with
  | none => none
  | some (s, e) =>
    match parse ((text.drop s).take (e + 1 - s)) with
    | some v => some v
    | none =>
      match parse ((text.drop s).take (e + 1 - s)) with
      | some v => some v
      | none => none

/-- Modelled from the spec: the balanced-scan strategy as the design notes
say it was intended ("clean, then parse the cleaned string") — identical to
`extract_balanced_json` except that the second parse attempt is applied to
the cleaned region. -/
def extract_balanced_json_spec {α : Type} (parse : List Char → Option α)
    (text : List Char) (sc : Char) : Option α :=
  match extract_balanced_region text sc with
  | none => none
  | some (s, e) => parseWithClean parse ((text.drop s).take (e + 1 - s))

/-- The fixed boilerplate phrase list of `extract_json` (lines 106-114),
in source order. -/
def common_prefixes : List (List Char) :=
  ["Here\x27s the JSON:".toList,
   "Here is the JSON:".toList,
   "The JSON is:".toList,
   "JSON:".toList,
   "Result:".toList,
   "Output:".toList,
   "Answer:".toList]

/-- The boilerplate-stripping loop of `extract_json` (lines 115-117): one
pass over the phrase list; each phrase that case-insensitively leads the
current text is removed (followed by a strip). -/
def stripPrefixes (t : List Char) : List Char :=
  common_prefixes.foldl
    (fun text p => if startsWithCI text p then pystrip (text.drop p.length) else text) t

/-- Strategy tags for `ExtractionOutcome` (spec §3), following the order of
the source's extraction chain. -/
inductive Strategy
  | direct
  | labeledFence
  | genericFence
  | balanced
  | bestEffort
deriving DecidableEq

/-- The error taxonomy of `extract_json` (spec §7): the `ValueError` of
line 101 (empty response) and of line 178 (exhaustion, carrying the
`text[:300]` excerpt). -/
inductive ExtractErr
  | emptyResponse
  | exhausted (excerpt : List Char)
deriving DecidableEq

/-- Result of the extraction orchestrator together with the list of
strategies whose parse attempts were reached, in execution order. -/
structure ExtractResult (α : Type) where
  result : Except ExtractErr (α × Strategy)
  attempted : List Strategy

/-- The labeled fenced-block strategy of `extract_json` (lines 126-141):
locate ```` ```json ```` in the lowered text, take up to the next
```` ``` ```` in the original text, strip, parse, clean-and-reparse. -/
def tryLabeledFence {α : Type} (parse : List Char → Option α) (text : List Char) : Option α :=
  match findSub? "```json".toList (toLowerStr text) with
  | none => none
  | some start_idx =>
    match findSub? "```".toList (text.drop (start_idx + 7)) with
    | none => none
    | some e0 => parseWithClean parse (pystrip ((text.drop (start_idx + 7)).take e0))

/-- The label-line skip of the generic fenced-block strategy (lines
146-148): if a newline occurs within 20 characters of the opening fence,
the interior starts after it. -/
def fenceStart (text : List Char) (start0 : Nat) : Nat :=
  match findSub? "\n".toList (text.drop start0) with
  | some n0 => if n0 < 20 then start0 + n0 + 1 else start0
  | none => start0

/-- The generic fenced-block strategy of `extract_json` (lines 144-159):
first ```` ``` ````, optionally skip a short label line, take up to the
next ```` ``` ````, strip, parse, clean-and-reparse. -/
def tryGenericFence {α : Type} (parse : List Char → Option α) (text : List Char) : Option α :=
  match findSub? "```".toList text with
  | none => none
  | some idx =>
    match findSub? "```".toList (text.drop (fenceStart text (idx + 3))) with
    | none => none
    | some e0 =>
      parseWithClean parse (pystrip ((text.drop (fenceStart text (idx + 3))).take e0))

/-- The balanced-scan strategy of `extract_json` (lines 162-165): object
opener first, then array opener.  (Line 164's `is not None` check means a
balanced region parsing to Python's `None` would be treated as absent; an
`Option`-valued parse cannot produce that value, and no claim depends on
it.) -/
def tryBalanced {α : Type} (parse : List Char → Option α) (text : List Char) : Option α :=
  match extract_balanced_json parse text '{' with
  | some v => some v
  | none => extract_balanced_json parse text '['

/-- One candidate of the best-effort suffix strategy (lines 168-176): from
the first occurrence of the opening character to the end, cleaned, then
parsed. -/
def tryBestEffortAt {α : Type} (parse : List Char → Option α)
    (text : List Char) (sc : Char) : Option α :=
  match List.findIdx? (fun c => c == sc) text with
  | none => none
  | some idx => parse (clean_json_string (text.drop idx))

/-- The best-effort suffix strategy of `extract_json` (lines 168-176). -/
def tryBestEffort {α : Type} (parse : List Char → Option α) (text : List Char) : Option α :=
  match tryBestEffortAt parse text '{' with
  | some v => some v
  | none => tryBestEffortAt parse text '['

/-- `LLMClient.extract_json` (lines 96-178), parametric over the external
`json.loads`.  Empty check (lines 100-101: `not text or not text.strip()`
is equivalent to the strip being empty), strip, boilerplate-phrase strip,
then the strategy chain in source order, finally the exhaustion error with
the `text[:300]` excerpt of the preprocessed text. -/
def extract_json {α : Type} (parse : List Char → Option α) (text0 : List Char) :
    ExtractResult α :=
  if pystrip text0 = [] then ⟨Except.error ExtractErr.emptyResponse, []⟩
  else
    let text := stripPrefixes (pystrip text0)
    match parse text with
    | some v => ⟨Except.ok (v, Strategy.direct), [Strategy.direct]⟩
    | none =>
      match tryLabeledFence parse text with
      | some v => ⟨Except.ok (v, Strategy.labeledFence),
                   [Strategy.direct, Strategy.labeledFence]⟩
      | none =>
        match tryGenericFence parse text with
        | some v => ⟨Except.ok (v, Strategy.genericFence),
                     [Strategy.direct, Strategy.labeledFence, Strategy.genericFence]⟩
        | none =>
          match tryBalanced parse text with
          | some v => ⟨Except.ok (v, Strategy.balanced),
                       [Strategy.direct, Strategy.labeledFence, Strategy.genericFence,
                        Strategy.balanced]⟩
          | none =>
            match tryBestEffort parse text with
            | some v => ⟨Except.ok (v, Strategy.bestEffort),
                         [Strategy.direct, Strategy.labeledFence, Strategy.genericFence,
                          Strategy.balanced, Strategy.bestEffort]⟩
            | none => ⟨Except.error (ExtractErr.exhausted (text.take 300)),
                       [Strategy.direct, Strategy.labeledFence, Strategy.genericFence,
                        Strategy.balanced, Strategy.bestEffort]⟩

/-- Structured values, for the concrete model of the external JSON
library. -/
inductive JsonV
  | null
  | bool (b : Bool)
  | num (n : Int)
  | str (s : List Char)
  | arr (xs : List JsonV)
  | obj (kvs : List (List Char × JsonV))

def skipWs (s : List Char) : List Char := s.dropWhile isSpace

/-- String-literal body: consume up to the closing quote, an escape taking
the next character verbatim. -/
def parseStrLit : List Char → Option (List Char × List Char)
  | [] => none
  | '"' :: rest => some ([], rest)
  | '\\' :: c :: rest => (parseStrLit rest).map (fun p => (c :: p.1, p.2))
  | c :: rest => (parseStrLit rest).map (fun p => (c :: p.1, p.2))

def digitsToNat (ds : List Char) : Nat :=
  ds.foldl (fun acc c => acc * 10 + (c.toNat - 48)) 0

def parseNum : List Char → Option (JsonV × List Char)
  | '-' :: rest =>
    let ds := rest.takeWhile Char.isDigit
    if ds = [] then none
    else some (JsonV.num (-(Int.ofNat (digitsToNat ds))), rest.drop ds.length)
  | s =>
    let ds := s.takeWhile Char.isDigit
    if ds = [] then none
    else some (JsonV.num (Int.ofNat (digitsToNat ds)), s.drop ds.length)

/-- Work item of the fueled JSON parser: a value, the tail of an array, or
the tail of an object. -/
inductive ParseJob
  | value
  | arrTail (acc : List JsonV)
  | objTail (acc : List (List Char × JsonV))

/-- Fueled recursive-descent parser for strict JSON (integers only): like
Python's `json.loads`, it rejects trailing commas and comments. -/
def parseF : Nat → ParseJob → List Char → Option (JsonV × List Char)
  | 0, _, _ => none
  | fuel + 1, ParseJob.value, s =>
    match skipWs s with
    | 'n' :: 'u' :: 'l' :: 'l' :: r => some (JsonV.null, r)
    | 't' :: 'r' :: 'u' :: 'e' :: r => some (JsonV.bool true, r)
    | 'f' :: 'a' :: 'l' :: 's' :: 'e' :: r => some (JsonV.bool false, r)
    | '"' :: r =>
      (match parseStrLit r with
       | some (cs, r2) => some (JsonV.str cs, r2)
       | none => none)
    | '[' :: r =>
      (match skipWs r with
       | ']' :: r2 => some (JsonV.arr [], r2)
       | _ => parseF fuel (ParseJob.arrTail []) r)
    | '{' :: r =>
      (match skipWs r with
       | '}' :: r2 => some (JsonV.obj [], r2)
       | _ => parseF fuel (ParseJob.objTail []) r)
    | r => parseNum r
  | fuel + 1, ParseJob.arrTail acc, s =>
    match parseF fuel ParseJob.value s with
    | none => none
    | some (v, r) =>
      match skipWs r with
      | ',' :: r2 => parseF fuel (ParseJob.arrTail (acc ++ [v])) r2
      | ']' :: r2 => some (JsonV.arr (acc ++ [v]), r2)
      | _ => none
  | fuel + 1, ParseJob.objTail acc, s =>
    match skipWs s with
    | '"' :: r =>
      (match parseStrLit r with
       | none => none
       | some (k, r1) =>
         match skipWs r1 with
         | ':' :: r2 =>
           (match parseF fuel ParseJob.value r2 with
            | none => none
            | some (v, r3) =>
              match skipWs r3 with
              | ',' :: r4 => parseF fuel (ParseJob.objTail (acc ++ [(k, v)])) r4
              | '}' :: r4 => some (JsonV.obj (acc ++ [(k, v)]), r4)
              | _ => none)
         | _ => none)
    | _ => none

/-- Model of the external strict JSON parser (`json.loads`), used to
instantiate the `parse` parameter in concrete witnesses. -/
def jsonLoads (s : List Char) : Option JsonV :=
  match parseF (s.length + 1) ParseJob.value s with
  | some (v, r) => if skipWs r = [] then some v else none
  | none => none

/-- The observable trace of one `chat_completion` call: number of backend
attempts made, the sequence of `time.sleep` waits (in seconds, delivery
order), and the outcome.  `Except.error none` models the final
`raise last_exception` executing with `last_exception` still `None`. -/
structure ChatTrace (ε σ : Type) where
  attempts : Nat
  waits : List Nat
  result : Except (Option ε) σ

/-- The retry loop of `chat_completion` (lines 56-78), run over the list of
attempt indices `range(max_retries)`: on success return immediately; on
failure record the exception and, when the attempt is not the last, wait
`2 ** attempt` seconds; after the loop, raise the last exception. -/
def chatLoop {ε σ : Type} (backend : Nat → Except ε σ) (maxRetries : Nat) :
    List Nat → Option ε → ChatTrace ε σ
  | [], last => ⟨0, [], Except.error last⟩
  | a :: rest, _ =>
    match backend a with
    | Except.ok s => ⟨1, [], Except.ok s⟩
    | Except.error e =>
      let t := chatLoop backend maxRetries rest (some e)
      if a < maxRetries - 1 then ⟨t.attempts + 1, 2 ^ a :: t.waits, t.result⟩
      else ⟨t.attempts + 1, t.waits, t.result⟩

/-- `chat_completion`'s retry mechanism for one effective backend.
`max_retries` is a Python `int`; `range(max_retries)` is empty when it is
zero or negative, which `Int.toNat` reproduces, and inside the loop the
`attempt < max_retries - 1` comparison agrees with the clamped `Nat`
version because the loop only runs when `max_retries ≥ 1`. -/
def chat_completion_trace {ε σ : Type} (backend : Nat → Except ε σ)
    (maxRetries : Int) : ChatTrace ε σ :=
  chatLoop backend maxRetries.toNat (List.range maxRetries.toNat) none

/-- One choice of a streaming chunk: `choices[i].delta.content`. -/
structure StreamChoice where
  content : Option (List Char)
deriving DecidableEq

/-- One chunk of a streaming response. -/
structure StreamChunk where
  choices : List StreamChoice
deriving DecidableEq

/-- The fragment a chunk contributes (lines 89-91): present only when the
chunk has a choice and `choices[0].delta.content` is not `None`. -/
def chunkContent (ch : StreamChunk) : Option (List Char) :=
  match ch.choices with
  | [] => none
  | c :: _ => c.content

/-- `LLMClient._handle_streaming_response` (lines 80-94): append each
present fragment in delivery order and join. -/
def handle_streaming_response (stream : List StreamChunk) : List Char :=
  (stream.filterMap chunkContent).join

/-- `LLMClient.chat_completion` (lines 32-78): in streaming mode the
attempt's chunk stream is aggregated by `_handle_streaming_response` inside
the same try, otherwise the attempt yields the full payload; both run under
the same retry loop.  The backend is modelled per delivery mode, matching
the `stream=True` request flag. -/
def chat_completion {ε : Type} (useStreaming : Bool)
    (backendStream : Nat → Except ε (List StreamChunk))
    (backendFull : Nat → Except ε (List Char))
    (maxRetries : Int) : ChatTrace ε (List Char) :=
  if useStreaming then
    chat_completion_trace (fun n => (backendStream n).map handle_streaming_response) maxRetries
  else
    chat_completion_trace backendFull maxRetries

/-- The scanner state after processing a list of characters. -/
def stateAt (sc ec : Char) (cs : List Char) (st : ScanState) : ScanState :=
  cs.foldl (scanStep sc ec) st

/-- Whether the scan over `cs` started in state `st` returns at relative
position `j`: the depth, tracked outside strings and under escapes, first
returns to zero there. -/
def triggersB (sc ec : Char) (cs : List Char) (st : ScanState) (j : Nat) : Bool :=
  match cs.get? j with
  | some c => closesB sc ec (stateAt sc ec (cs.take j) st) c
  | none => false

/- Helper lemmas (shared; not claim theorems). -/

lemma removeTrailingCommas_id {s : List Char} (h : ',' ∉ s) :
    removeTrailingCommas s = s := by
  induction s with
  | nil => rfl
  | cons c rest ih =>
    simp only [List.mem_cons, not_or] at h
    have hc : (c == ',') = false := beq_eq_false_iff_ne.mpr (fun e => h.1 e.symm)
    simp [removeTrailingCommas, hc, ih h.2]

lemma removeLineCommentsAux_id {s : List Char} (h : '/' ∉ s) :
    removeLineCommentsAux false s = s := by
  induction s with
  | nil => rfl
  | cons c rest ih =>
    simp only [List.mem_cons, not_or] at h
    have hc : (c == '/') = false := beq_eq_false_iff_ne.mpr (fun e => h.1 e.symm)
    cases rest with
    | nil => simp [removeLineCommentsAux]
    | cons r rest2 => simp [removeLineCommentsAux, hc, ih h.2]

lemma removeBlockCommentsAux_id {s : List Char} (h : '/' ∉ s) :
    removeBlockCommentsAux false s = s := by
  induction s with
  | nil => rfl
  | cons c rest ih =>
    simp only [List.mem_cons, not_or] at h
    have hc : (c == '/') = false := beq_eq_false_iff_ne.mpr (fun e => h.1 e.symm)
    cases rest with
    | nil => simp [removeBlockCommentsAux]
    | cons r rest2 => simp [removeBlockCommentsAux, hc, ih h.2]

lemma dropWhile_isSpace_id {s : List Char}
    (h : (s.head?.all fun c => !isSpace c) = true) :
    List.dropWhile isSpace s = s := by
  cases s with
  | nil => rfl
  | cons c rest =>
    simp only [List.head?, Option.all_some, Bool.not_eq_true'] at h
    simp [List.dropWhile, h]

lemma pystrip_id {s : List Char}
    (h1 : (s.head?.all fun c => !isSpace c) = true)
    (h2 : (s.getLast?.all fun c => !isSpace c) = true) :
    pystrip s = s := by
  have h2' : (s.reverse.head?.all fun c => !isSpace c) = true := by
    rw [List.head?_reverse]; exact h2
  unfold pystrip
  rw [dropWhile_isSpace_id h1, dropWhile_isSpace_id h2', List.reverse_reverse]

lemma foldl_stripPrefixes_id :
    ∀ (ps : List (List Char)) (t : List Char),
      (∀ p ∈ ps, startsWithCI t p = false) →
      ps.foldl (fun text p =>
        if startsWithCI text p then pystrip (text.drop p.length) else text) t = t := by
  intro ps
  induction ps with
  | nil => intro t _; rfl
  | cons p rest ih =>
    intro t h
    have hp : startsWithCI t p = false := h p (by simp)
    simp only [List.foldl_cons, hp, if_false]
    exact ih t (fun q hq => h q (by simp [hq]))


/-- Claim C7: an input that is empty or whitespace-only makes `extract_json`
fail immediately with the empty-response error, before any extraction
strategy is attempted (no strategy appears in the attempt trace); since the
orchestrator contains no retry loop, it is not retried. -/
theorem C7_empty_input_fails_immediately {α : Type} (parse : List Char → Option α)
    (text0 : List Char) (h : pystrip text0 = []) :
    extract_json parse text0 = ⟨Except.error ExtractErr.emptyResponse, []⟩ := by
  simp [extract_json, h]

theorem C7_empty_input_fails_immediately_witness :
    extract_json (fun _ => some ()) "   ".toList =
      ⟨Except.error ExtractErr.emptyResponse, []⟩ :=
  C7_empty_input_fails_immediately (fun _ => some ()) "   ".toList (by decide)

/-- Claim C5: whenever direct parsing of the (stripped, boilerplate-stripped)
text succeeds, `extract_json` returns exactly that parsed value tagged as
produced by the direct strategy, and no later strategy is invoked (the
attempt trace is exactly `[direct]`). -/
theorem C5_direct_parse_first {α : Type} (parse : List Char → Option α)
    (text0 : List Char) (v : α) (h1 : ¬ pystrip text0 = [])
    (h2 : parse (stripPrefixes (pystrip text0)) = some v) :
    extract_json parse text0 = ⟨Except.ok (v, Strategy.direct), [Strategy.direct]⟩ := by
  simp [extract_json, h1, h2]

theorem C5_direct_parse_first_witness :
    extract_json jsonLoads "Output: \x7b\"a\": 1\x7d".toList =
      ⟨Except.ok (JsonV.obj [(['a'], JsonV.num 1)], Strategy.direct), [Strategy.direct]⟩ :=
  C5_direct_parse_first jsonLoads _ _ (by decide) (by rfl)

/-- Claim C1 (the defect the spec's design notes describe): on the input
`{"a": 1,}` the Balanced Scanner finds the balanced region `(0, 9)` (the
whole text); its direct parse fails (strict JSON rejects the trailing
comma); the Lenient Cleaner turns it into `{"a": 1}`, which parses; yet the
source's balanced strategy (line 233 re-parses the UNCLEANED region)
returns `None`, while the spec-intended clean-then-parse variant returns
the parsed object. -/
theorem C1_balanced_clean_parse_defect :
    extract_balanced_region "\x7b\"a\": 1,\x7d".toList '{' = some (0, 8) ∧
    jsonLoads "\x7b\"a\": 1,\x7d".toList = none ∧
    clean_json_string "\x7b\"a\": 1,\x7d".toList = "\x7b\"a\": 1\x7d".toList ∧
    jsonLoads (clean_json_string "\x7b\"a\": 1,\x7d".toList) =
      some (JsonV.obj [(['a'], JsonV.num 1)]) ∧
    extract_balanced_json jsonLoads "\x7b\"a\": 1,\x7d".toList '{' = none ∧
    extract_balanced_json_spec jsonLoads "\x7b\"a\": 1,\x7d".toList '{' =
      some (JsonV.obj [(['a'], JsonV.num 1)]) :=
  ⟨by decide, by rfl, by decide, by rfl, by rfl, by rfl⟩

/-- Claim C4, counterexample: the Lenient Cleaner is not idempotent.
Cleaning `,,]` removes the second comma (whose next non-space character is
`]`) giving `,]`, in which a new comma-before-closer match has appeared;
cleaning again gives `]`. -/
theorem C4_cleaner_not_idempotent :
    clean_json_string (clean_json_string ",,]".toList) ≠
      clean_json_string ",,]".toList := by
  decide

/-- Claim C4, amended: cleaning already-clean text is a no-op — for every
string with no comma, no slash, and no leading or trailing whitespace, the
Lenient Cleaner returns it unchanged (idempotence in general fails, see the
counterexample). -/
theorem C4_cleaner_noop_on_clean {s : List Char} (h1 : ',' ∉ s) (h2 : '/' ∉ s)
    (h3 : (s.head?.all fun c => !isSpace c) = true)
    (h4 : (s.getLast?.all fun c => !isSpace c) = true) :
    clean_json_string s = s := by
  unfold clean_json_string removeLineComments removeBlockComments
  rw [removeTrailingCommas_id h1, removeLineCommentsAux_id h2,
      removeBlockCommentsAux_id h2, pystrip_id h3 h4]

theorem C4_cleaner_noop_on_clean_witness :
    clean_json_string "\x7b\"a\": 1\x7d".toList = "\x7b\"a\": 1\x7d".toList :=
  C4_cleaner_noop_on_clean (by decide) (by decide) (by decide) (by decide)

/-- Claim C9, counterexample: the prefix-strip step can remove more than one
leading boilerplate phrase.  On `JSON: Result: 5` the only phrase matching
the original text is `JSON:`, whose single removal yields `Result: 5`; the
source's single pass then also strips `Result:` (listed after `JSON:`), so
the step produces `5`, not the one-phrase result. -/
theorem C9_prefix_strip_removes_two :
    stripPrefixes (pystrip "JSON: Result: 5".toList) = "5".toList ∧
    pystrip ("JSON: Result: 5".toList.drop ("JSON:".toList.length)) =
      "Result: 5".toList ∧
    "5".toList ≠ "Result: 5".toList :=
  ⟨by decide, by decide, by decide⟩

/-- Claim C9, amended: the prefix-strip step makes one pass over the fixed
phrase list in order, removing each phrase (case-insensitively, followed by
whitespace stripping) at most once when it leads the current text — so
several distinct phrases can be stripped in sequence (`JSON: Result: 5`
becomes `5`), while text whose start matches no listed phrase is left
unchanged. -/
theorem C9_prefix_strip_single_pass :
    (∀ t : List Char, (∀ p ∈ common_prefixes, startsWithCI t p = false) →
      stripPrefixes t = t) ∧
    stripPrefixes "JSON: Result: 5".toList = "5".toList := by
  constructor
  · intro t h
    unfold stripPrefixes
    exact foldl_stripPrefixes_id common_prefixes t h
  · decide

theorem C9_prefix_strip_single_pass_witness :
    stripPrefixes "xyz".toList = "xyz".toList :=
  C9_prefix_strip_single_pass.1 "xyz".toList (by decide)

/-- Claim C8, counterexample: the exhaustion error's excerpt is taken from
the preprocessed text, not the original input.  For input `Output: hello`
(with a parser rejecting everything) the excerpt is `hello`, which is not a
prefix of the original input text. -/
theorem C8_excerpt_not_of_original :
    (extract_json (fun _ : List Char => (none : Option Unit))
        "Output: hello".toList).result =
      Except.error (ExtractErr.exhausted "hello".toList) ∧
    "Output: hello".toList.take ("hello".toList.length) ≠ "hello".toList :=
  ⟨by rfl, by decide⟩

/-- Claim C8, amended: for every non-empty input on which every strategy's
parse attempt fails — direct parse of the preprocessed text and each of the
four later strategies fail on this input — `extract_json` raises the
exhaustion error carrying the 300-character bounded prefix of the
preprocessed (whitespace- and boilerplate-prefix-stripped) text, after all
strategies have been tried. -/
theorem C8_exhaustion_excerpt_preprocessed {α : Type}
    (parse : List Char → Option α) (text0 : List Char)
    (h1 : ¬ pystrip text0 = [])
    (hdirect : parse (stripPrefixes (pystrip text0)) = none)
    (hlab : tryLabeledFence parse (stripPrefixes (pystrip text0)) = none)
    (hgen : tryGenericFence parse (stripPrefixes (pystrip text0)) = none)
    (hbal : tryBalanced parse (stripPrefixes (pystrip text0)) = none)
    (hbest : tryBestEffort parse (stripPrefixes (pystrip text0)) = none) :
    extract_json parse text0 =
      ⟨Except.error (ExtractErr.exhausted ((stripPrefixes (pystrip text0)).take 300)),
       [Strategy.direct, Strategy.labeledFence, Strategy.genericFence,
        Strategy.balanced, Strategy.bestEffort]⟩ := by
  simp [extract_json, h1, hdirect, hlab, hgen, hbal, hbest]

theorem C8_exhaustion_excerpt_preprocessed_witness :
    extract_json jsonLoads "hello world".toList =
      ⟨Except.error (ExtractErr.exhausted "hello world".toList),
       [Strategy.direct, Strategy.labeledFence, Strategy.genericFence,
        Strategy.balanced, Strategy.bestEffort]⟩ :=
  (C8_exhaustion_excerpt_preprocessed jsonLoads "hello world".toList
    (by decide) (by rfl) (by rfl) (by rfl) (by rfl) (by rfl)).trans (by rfl)

/-- Claim C10: with `max_retries = 0` (or negative) the retry loop body
never executes — no backend attempt is made, no wait occurs — and the call
terminates by raising with `last_exception` still `None` (never returning a
response text), in either delivery mode and for any backend. -/
theorem C10_zero_retries_raises_none {ε : Type} (useStreaming : Bool)
    (bs : Nat → Except ε (List StreamChunk)) (bf : Nat → Except ε (List Char))
    (m : Int) (h : m ≤ 0) :
    chat_completion useStreaming bs bf m = ⟨0, [], Except.error none⟩ := by
  have hz : m.toNat = 0 := Int.toNat_of_nonpos h
  cases useStreaming <;>
    simp [chat_completion, chat_completion_trace, hz, List.range_zero, chatLoop]

theorem C10_zero_retries_raises_none_witness :
    chat_completion false (fun _ => Except.ok []) (fun _ => Except.ok "ok".toList) 0 =
      ⟨0, [], Except.error (none : Option Nat)⟩ :=
  C10_zero_retries_raises_none false _ _ 0 (by decide)

lemma chatLoop_allFail {ε σ : Type} (backend : Nat → Except ε σ) (errs : Nat → ε)
    (hb : ∀ n, backend n = Except.error (errs n)) (m : Nat) :
    ∀ (k a : Nat) (last : Option ε), a + k = m →
      chatLoop backend m (List.range' a k) last =
        ⟨k, (List.range' a (k - 1)).map (fun i => 2 ^ i),
         Except.error (if k = 0 then last else some (errs (m - 1)))⟩ := by
  intro k
  induction k with
  | zero =>
    intro a last _
    simp [List.range', chatLoop]
  | succ k ih =>
    intro a last hak
    rw [List.range'_succ]
    simp only [chatLoop, hb a]
    rw [ih (a + 1) (some (errs a)) (by omega)]
    cases k with
    | zero =>
      have hlt : ¬ a < m - 1 := by omega
      have ha : a = m - 1 := by omega
      simp [hlt, ha, List.range']
    | succ k' =>
      have hlt : a < m - 1 := by omega
      simp only [hlt, if_true, if_pos hlt]
      have hr : List.range' a (k' + 1 + 1 - 1) = a :: List.range' (a + 1) (k' + 1 - 1) := by
        have h1 : k' + 1 + 1 - 1 = (k' + 1 - 1) + 1 := by omega
        rw [h1, List.range'_succ]
      simp [hr]
      rw [List.range'_succ]
      simp

lemma chat_completion_trace_allFail {ε σ : Type} (backend : Nat → Except ε σ)
    (errs : Nat → ε) (hb : ∀ n, backend n = Except.error (errs n))
    (m : Int) (hm : 1 ≤ m) :
    chat_completion_trace backend m =
      ⟨m.toNat, (List.range (m.toNat - 1)).map (fun i => 2 ^ i),
       Except.error (some (errs (m.toNat - 1)))⟩ := by
  have hk : ¬ m.toNat = 0 := by omega
  unfold chat_completion_trace
  rw [List.range_eq_range',
      chatLoop_allFail backend errs hb m.toNat m.toNat 0 none (by omega),
      List.range_eq_range']
  simp [hk]

/-- Claim C2: against a backend failing on every attempt (in either delivery
mode), `chat_completion` makes exactly `max_retries` attempts, sleeps
exactly `2^i` seconds after each failed attempt `i` except the last (the
wait list is `[2^0, …, 2^(max_retries-2)]`, i.e. `[1, 2]` for
`max_retries = 3`), and then raises carrying the last underlying failure. -/
theorem C2_retry_schedule {ε : Type} (errs : Nat → ε) (useStreaming : Bool)
    (bs : Nat → Except ε (List StreamChunk)) (bf : Nat → Except ε (List Char))
    (m : Int) (hm : 1 ≤ m)
    (hbs : ∀ n, bs n = Except.error (errs n)) (hbf : ∀ n, bf n = Except.error (errs n)) :
    chat_completion useStreaming bs bf m =
      ⟨m.toNat, (List.range (m.toNat - 1)).map (fun i => 2 ^ i),
       Except.error (some (errs (m.toNat - 1)))⟩ := by
  cases useStreaming with
  | false =>
    show chat_completion_trace bf m = _
    exact chat_completion_trace_allFail bf errs hbf m hm
  | true =>
    show chat_completion_trace (fun n => (bs n).map handle_streaming_response) m = _
    refine chat_completion_trace_allFail _ errs (fun n => ?_) m hm
    rw [hbs n]
    rfl

theorem C2_retry_schedule_witness :
    chat_completion false (fun n => Except.error n) (fun n => Except.error n) 3 =
      ⟨3, [1, 2], Except.error (some (2 : Nat))⟩ :=
  (C2_retry_schedule (fun n => n) false (fun n => Except.error n)
    (fun n => Except.error n) 3 (by norm_num) (fun _ => rfl) (fun _ => rfl)).trans (by rfl)

lemma chat_completion_trace_firstOk {ε σ : Type} (backend : Nat → Except ε σ)
    (s : σ) (h0 : backend 0 = Except.ok s) (m : Int) (hm : 1 ≤ m) :
    chat_completion_trace backend m = ⟨1, [], Except.ok s⟩ := by
  obtain ⟨k, hk⟩ : ∃ k, m.toNat = k + 1 := ⟨m.toNat - 1, by omega⟩
  unfold chat_completion_trace
  rw [hk, List.range_eq_range', List.range'_succ]
  simp [chatLoop, h0]

/-- Claim C6: the same logical content delivered as one full payload or as
fragments whose concatenation equals that payload yields identical text
from `chat_completion` in the two modes; and the aggregator concatenates
fragments in delivery order, skipping chunks that are absent (no choice or
`None` content) or empty without inserting placeholders. -/
theorem C6_streaming_equivalence {ε : Type}
    (bs : Nat → Except ε (List StreamChunk)) (bf : Nat → Except ε (List Char))
    (chunks : List StreamChunk) (payload : List Char) (m : Int)
    (hm : 1 ≤ m) (h0s : bs 0 = Except.ok chunks) (h0f : bf 0 = Except.ok payload)
    (hagg : (chunks.filterMap chunkContent).join = payload) :
    (chat_completion true bs bf m = chat_completion false bs bf m ∧
      (chat_completion true bs bf m).result = Except.ok payload) ∧
    (∀ pre post : List StreamChunk,
        handle_streaming_response (pre ++ StreamChunk.mk [] :: post) =
          handle_streaming_response (pre ++ post)) ∧
    (∀ pre post : List StreamChunk,
        handle_streaming_response (pre ++ StreamChunk.mk [StreamChoice.mk none] :: post) =
          handle_streaming_response (pre ++ post)) ∧
    (∀ pre post : List StreamChunk,
        handle_streaming_response
            (pre ++ StreamChunk.mk [StreamChoice.mk (some [])] :: post) =
          handle_streaming_response (pre ++ post)) := by
  constructor
  · have hs : chat_completion true bs bf m = ⟨1, [], Except.ok payload⟩ := by
      show chat_completion_trace (fun n => (bs n).map handle_streaming_response) m = _
      refine chat_completion_trace_firstOk _ payload ?_ m hm
      simp only [h0s, Except.map]
      unfold handle_streaming_response
      rw [hagg]
    have hf : chat_completion false bs bf m = ⟨1, [], Except.ok payload⟩ := by
      show chat_completion_trace bf m = _
      exact chat_completion_trace_firstOk bf payload h0f m hm
    rw [hs, hf]
    exact ⟨rfl, rfl⟩
  · refine ⟨?_, ?_, ?_⟩ <;> intro pre post <;>
      simp [handle_streaming_response, List.filterMap_append, List.filterMap_cons,
            chunkContent]

theorem C6_streaming_equivalence_witness :
    chat_completion true
      (fun _ => (Except.ok [StreamChunk.mk [StreamChoice.mk (some "he".toList)],
        StreamChunk.mk [], StreamChunk.mk [StreamChoice.mk none],
        StreamChunk.mk [StreamChoice.mk (some "llo".toList)]] :
          Except Unit (List StreamChunk)))
      (fun _ => Except.ok "hello".toList) 3 =
    chat_completion false
      (fun _ => (Except.ok [StreamChunk.mk [StreamChoice.mk (some "he".toList)],
        StreamChunk.mk [], StreamChunk.mk [StreamChoice.mk none],
        StreamChunk.mk [StreamChoice.mk (some "llo".toList)]] :
          Except Unit (List StreamChunk)))
      (fun _ => Except.ok "hello".toList) 3 :=
  (C6_streaming_equivalence _ _ _ _ 3 (by norm_num) rfl rfl (by rfl)).1.1

lemma scan_cons (sc ec : Char) (c : Char) (rest : List Char) (i : Nat) (st : ScanState) :
    scanChars sc ec (c :: rest) i st =
      if closesB sc ec st c then some i
      else scanChars sc ec rest (i + 1) (scanStep sc ec st c) := by
  cases st with
  | mk d instr esc =>
    cases esc with
    | true => simp [scanChars, scanStep, closesB]
    | false =>
      cases h1 : (c == '\\') with
      | true => simp [scanChars, scanStep, closesB, h1]
      | false =>
        cases h2 : (c == '"') with
        | true => simp [scanChars, scanStep, closesB, h1, h2]
        | false =>
          cases instr with
          | true => simp [scanChars, scanStep, closesB, h1, h2]
          | false =>
            cases h3 : (c == sc) with
            | true => simp [scanChars, scanStep, closesB, h1, h2, h3]
            | false =>
              cases h4 : (c == ec) with
              | false => simp [scanChars, scanStep, closesB, h1, h2, h3, h4]
              | true =>
                cases h5 : (d - 1 == 0) with
                | true => simp [scanChars, scanStep, closesB, h1, h2, h3, h4, h5]
                | false => simp [scanChars, scanStep, closesB, h1, h2, h3, h4, h5]

lemma triggersB_nil (sc ec : Char) (st : ScanState) (j : Nat) :
    triggersB sc ec [] st j = false := rfl

lemma triggersB_cons_zero (sc ec : Char) (c : Char) (cs : List Char) (st : ScanState) :
    triggersB sc ec (c :: cs) st 0 = closesB sc ec st c := rfl

lemma triggersB_cons_succ (sc ec : Char) (c : Char) (cs : List Char) (st : ScanState)
    (k : Nat) :
    triggersB sc ec (c :: cs) st (k + 1) = triggersB sc ec cs (scanStep sc ec st c) k := by
  cases hg : cs.get? k with
  | none =>
    simp [triggersB, hg, List.get?_cons_succ, List.take_succ_cons, stateAt, List.foldl_cons]
  | some c2 =>
    simp [triggersB, hg, List.get?_cons_succ, List.take_succ_cons, stateAt, List.foldl_cons]

lemma scanChars_eq_some_iff (sc ec : Char) :
    ∀ (cs : List Char) (st : ScanState) (i e : Nat),
      scanChars sc ec cs i st = some e ↔
        ∃ j, triggersB sc ec cs st j = true ∧ e = i + j ∧
          ∀ k, k < j → triggersB sc ec cs st k = false := by
  intro cs
  induction cs with
  | nil =>
    intro st i e
    constructor
    · intro h
      simp [scanChars] at h
    · rintro ⟨j, hj, _, _⟩
      rw [triggersB_nil] at hj
      exact absurd hj (by simp)
  | cons c rest ih =>
    intro st i e
    rw [scan_cons]
    by_cases hc : closesB sc ec st c = true
    · simp only [hc, if_true]
      constructor
      · intro h
        have he : e = i := by
          injection h with h'
          omega
        refine ⟨0, ?_, by omega, fun k hk => absurd hk (Nat.not_lt_zero k)⟩
        rw [triggersB_cons_zero]
        exact hc
      · rintro ⟨j, hj, he, hmin⟩
        cases j with
        | zero => simp [he]
        | succ j' =>
          have h0 := hmin 0 (Nat.succ_pos j')
          rw [triggersB_cons_zero] at h0
          rw [hc] at h0
          exact absurd h0 (by simp)
    · have hc' : closesB sc ec st c = false := by
        cases hcc : closesB sc ec st c
        · rfl
        · exact absurd hcc hc
      simp only [hc', Bool.false_eq_true, if_false]
      rw [ih (scanStep sc ec st c) (i + 1) e]
      constructor
      · rintro ⟨j, hj, he, hmin⟩
        refine ⟨j + 1, ?_, by omega, ?_⟩
        · rw [triggersB_cons_succ]
          exact hj
        · intro k hk
          cases k with
          | zero =>
            rw [triggersB_cons_zero]
            exact hc'
          | succ k' =>
            rw [triggersB_cons_succ]
            exact hmin k' (by omega)
      · rintro ⟨j, hj, he, hmin⟩
        cases j with
        | zero =>
          rw [triggersB_cons_zero] at hj
          rw [hj] at hc'
          exact absurd hc' (by simp)
        | succ j' =>
          rw [triggersB_cons_succ] at hj
          refine ⟨j', hj, by omega, ?_⟩
          intro k hk
          have hmk := hmin (k + 1) (by omega)
          rw [triggersB_cons_succ] at hmk
          exact hmk

/-- Claim C3: whenever the Balanced Scanner returns a region, it runs from
the first occurrence of the opening character to the first position at
which the tracked depth returns to zero (no earlier position triggers, so
bracket characters inside quoted strings never end the scan early); an
escaped character is inert and clears the escape flag, a backslash sets it,
an unescaped quote toggles the in-string flag, any other character inside a
string leaves the state (and thus the depth) unchanged; and the example
`{"a": "x{y}z"}` is scanned as one complete region. -/
theorem C3_balanced_scanner :
    (∀ (text : List Char) (sc : Char) (s e : Nat),
        extract_balanced_region text sc = some (s, e) →
          List.findIdx? (fun c => c == sc) text = some s ∧ s ≤ e ∧
          triggersB sc (endCharOf sc) (text.drop s) ⟨0, false, false⟩ (e - s) = true ∧
          ∀ k, k < e - s →
            triggersB sc (endCharOf sc) (text.drop s) ⟨0, false, false⟩ k = false) ∧
    (∀ (sc ec : Char) (st : ScanState) (c : Char), st.escapeNext = true →
        scanStep sc ec st c = ⟨st.depth, st.inString, false⟩) ∧
    (∀ (sc ec : Char) (st : ScanState), st.escapeNext = false →
        scanStep sc ec st '\\' = ⟨st.depth, st.inString, true⟩) ∧
    (∀ (sc ec : Char) (st : ScanState), st.escapeNext = false →
        scanStep sc ec st '"' = ⟨st.depth, !st.inString, false⟩) ∧
    (∀ (sc ec : Char) (st : ScanState) (c : Char), st.inString = true →
        st.escapeNext = false → ¬ c = '\\' → ¬ c = '"' →
        scanStep sc ec st c = st) ∧
    extract_balanced_region "\x7b\"a\": \"x\x7by\x7dz\"\x7d".toList '{' = some (0, 13) := by
  refine ⟨?_, ?_, ?_, ?_, ?_, by decide⟩
  · intro text sc s e h
    unfold extract_balanced_region at h
    cases hf : List.findIdx? (fun c => c == sc) text with
    | none => simp [hf] at h
    | some s0 =>
      simp only [hf] at h
      cases hs : scanChars sc (endCharOf sc) (text.drop s0) s0 ⟨0, false, false⟩ with
      | none => simp [hs] at h
      | some e0 =>
        simp only [hs, Option.some.injEq, Prod.mk.injEq] at h
        obtain ⟨h1, h2⟩ := h
        subst h1
        subst h2
        rw [scanChars_eq_some_iff] at hs
        obtain ⟨j, hj, hje, hmin⟩ := hs
        have hj' : e0 - s0 = j := by omega
        exact ⟨rfl, by omega, by rw [hj']; exact hj, fun k hk => hmin k (by omega)⟩
  · intro sc ec st c h
    simp [scanStep, h]
  · intro sc ec st h
    simp [scanStep, h]
  · intro sc ec st h
    have hq : (('"' : Char) == '\\') = false := by decide
    simp [scanStep, h, hq]
  · intro sc ec st c hin hesc hbs hq
    have h1 : (c == '\\') = false := beq_eq_false_iff_ne.mpr hbs
    have h2 : (c == '"') = false := beq_eq_false_iff_ne.mpr hq
    simp [scanStep, hesc, h1, h2, hin]

theorem C3_balanced_scanner_witness :
    List.findIdx? (fun c => c == '{') "\x7b\"a\": \"x\x7by\x7dz\"\x7d".toList = some 0 ∧
    triggersB '{' (endCharOf '{') ("\x7b\"a\": \"x\x7by\x7dz\"\x7d".toList.drop 0)
      ⟨0, false, false⟩ 13 = true :=
  ⟨(C3_balanced_scanner.1 "\x7b\"a\": \"x\x7by\x7dz\"\x7d".toList '{' 0 13 (by decide)).1,
   (C3_balanced_scanner.1 "\x7b\"a\": \"x\x7by\x7dz\"\x7d".toList '{' 0 13 (by decide)).2.2.1⟩
